import Mathlib

/-!
Verification of the extraction-and-normalization pipeline of the scraper
repository, as a shallow embedding in Lean 4.

Strings are modelled as `List Char` in the core functions (Python `str`
values are sequences of unicode code points), with `String` wrappers at the
boundary.  Python dictionaries holding the raw fetch result are modelled as
a structure of `Option String` fields, `none` standing for an absent key,
since `dict.get` returns `None` for missing keys and the code only ever
tests fields for truthiness or equality.
-/

set_option autoImplicit false

namespace Scraper

/-! ### Generic character-list utilities (Python `str` primitives) -/

/-- Python `s.split(c)` for a single-character separator: always returns a
non-empty list; `"".split(c) == [""]`. -/
def splitOnChar (c : Char) : List Char → List (List Char)
  | [] => [[]]
  | x :: xs =>
    match splitOnChar c xs with
    | r :: rs => if x = c then [] :: r :: rs else (x :: r) :: rs
    | [] => [[]]

/-- Python `c.join(parts)` for a single-character separator. -/
def joinWith (c : Char) : List (List Char) → List Char
  | [] => []
  | [l] => l
  | l :: l2 :: ls => l ++ c :: joinWith c (l2 :: ls)

/-- Python `s.split(c, 1)`: split at the first occurrence of `c`, returning
`none` when `c` does not occur.  Also models `s.find(c)` based splitting. -/
def splitFirst (c : Char) : List Char → Option (List Char × List Char)
  | [] => none
  | x :: xs =>
    if x = c then some ([], xs)
    else (splitFirst c xs).map (fun p => (x :: p.1, p.2))

/-- Python `pat in s` (substring containment). -/
def hasInfix (pat : List Char) : List Char → Bool
  | [] => pat.isEmpty
  | x :: xs => pat.isPrefixOf (x :: xs) || hasInfix pat xs

/-- Python `parts[parts.index(seg) + 1]` guarded by
`seg in parts and parts.index(seg) < len(parts) - 1`: the segment right
after the first occurrence of `seg`, if both exist. -/
def segmentAfterFirst (seg : List Char) : List (List Char) → Option (List Char)
  | [] => none
  | p :: ps => if p = seg then ps.head? else segmentAfterFirst seg ps

/-- Python `s.isdigit()` restricted to ASCII decimal digits (the only digits
appearing in the page ids of interest): non-empty and all digits. -/
def isdigitPy (l : List Char) : Bool := !l.isEmpty && l.all Char.isDigit

/-! ### Percent-decoding (`urllib.parse.unquote` / `parse_qsl` value decoding) -/

/-- Hexadecimal digit test, as in the `_hextobyte` table of `urllib.parse`. -/
def isHexD (c : Char) : Bool :=
  c.isDigit || ('a' ≤ c && c ≤ 'f') || ('A' ≤ c && c ≤ 'F')

/-- Numeric value of a hexadecimal digit. -/
def hexVal (c : Char) : Nat :=
  if c.isDigit then c.toNat - '0'.toNat
  else if 'a' ≤ c then c.toNat - 'a'.toNat + 10
  else c.toNat - 'A'.toNat + 10

/-- Python `urllib.parse.unquote`, byte-wise: each `%hh` with two hex digits
becomes the character of that code, an invalid escape is kept literally.
(CPython additionally joins consecutive decoded bytes into UTF-8 sequences;
for bytes below 0x80 — the only ones reachable under the hypotheses used
below — the two coincide.) -/
def unquoteAux : Nat → List Char → List Char
  | 0, l => l
  | _ + 1, [] => []
  | fuel + 1, c :: rest =>
    if c = '%' then
      match rest with
      | h1 :: h2 :: r2 =>
        if isHexD h1 && isHexD h2 then
          Char.ofNat (hexVal h1 * 16 + hexVal h2) :: unquoteAux fuel r2
        else '%' :: unquoteAux fuel (h1 :: h2 :: r2)
      | _ => '%' :: unquoteAux fuel rest
    else c :: unquoteAux fuel rest

/-- Entry point of the decoder: the fuel (one unit per emitted character)
is the input length, which suffices since every step consumes at least one
input character. -/
def unquoteBytes (l : List Char) : List Char := unquoteAux l.length l

/-- Python `unquote_plus` as used by `parse_qsl`: `+` becomes a space, then
percent-escapes are decoded. -/
def unquotePlus (l : List Char) : List Char :=
  unquoteBytes (l.map (fun c => if c = '+' then ' ' else c))

/-! ### `urllib.parse.urlparse`: the `path` and `query` components

Embeds the component extraction of CPython `urlsplit` as far as the scraper
uses it (`parsed_url.path`, `parsed_url.query`): removal of ASCII tab and
newlines, scheme detection, netloc skipping, fragment and query splitting.
The `ValueError` on unbalanced brackets in the netloc is not modelled. -/

/-- CPython `urlsplit` first removes ASCII tab, carriage return and newline. -/
def stripUnsafe (l : List Char) : List Char :=
  l.filter (fun c => !(c = '\t' || c = '\r' || c = '\n'))

/-- Characters allowed in a URL scheme (`urllib.parse.scheme_chars`). -/
def schemeChar (c : Char) : Bool :=
  c.isAlpha || c.isDigit || c = '+' || c = '-' || c = '.'

/-- Scheme removal: if the text before the first `:` is a non-empty valid
scheme starting with a letter, drop it (the scheme itself is unused). -/
def dropScheme (l : List Char) : List Char :=
  match splitFirst ':' l with
  | some (pre, post) =>
    if (match pre with | p0 :: _ => p0.isAlpha | [] => false) && pre.all schemeChar
    then post else l
  | none => l

/-- Scan inside the netloc until the first of `/`, `?`, `#` (kept). -/
def dropNetlocAux : List Char → List Char
  | [] => []
  | x :: xs => if x = '/' || x = '?' || x = '#' then x :: xs else dropNetlocAux xs

/-- Netloc removal: if the remainder starts with `//`, skip up to the next
`/`, `?` or `#` (CPython `_splitnetloc`). -/
def dropNetloc (l : List Char) : List Char :=
  match l with
  | '/' :: '/' :: rest => dropNetlocAux rest
  | _ => l

/-- Fragment removal: everything from the first `#` on is dropped. -/
def dropFragment (l : List Char) : List Char :=
  match splitFirst '#' l with
  | some (pre, _) => pre
  | none => l

/-- Split the remainder into path and query at the first `?`. -/
def pathAndQuery (l : List Char) : List Char × List Char :=
  match splitFirst '?' l with
  | some (p, q) => (p, q)
  | none => (l, [])

/-- The `path` and `query` components of `urllib.parse.urlparse(url)`. -/
def urlPathQuery (url : List Char) : List Char × List Char :=
  pathAndQuery (dropFragment (dropNetloc (dropScheme (stripUnsafe url))))

/-! ### `urllib.parse.parse_qs` -/

/-- Python `parse_qsl(qs)` with the default `keep_blank_values=False`:
chunks split on `&`; empty chunks, chunks without `=` and chunks with an
empty value are dropped; names and values are `unquote_plus`-decoded. -/
def parseQsl (q : List Char) : List (List Char × List Char) :=
  (splitOnChar '&' q).filterMap (fun chunk =>
    if chunk.isEmpty then none
    else
      match splitFirst '=' chunk with
      | none => none
      | some (n, v) =>
        if v.isEmpty then none else some (unquotePlus n, unquotePlus v))

/-- Python `parse_qs(q).get(name, [None])[0]`: the first value recorded for
`name`, if any (`parse_qs` groups `parse_qsl` pairs in encounter order). -/
def getFirstParam (name : List Char) (q : List Char) : Option (List Char) :=
  (((parseQsl q).filter (fun p => decide (p.1 = name))).head?).map (fun p => p.2)

/-! ### `RobustCrawler._extract_page_id` (src/confluence_scraper.py, lines 96-141) -/

/-- The query-parameter recognizer:
`urllib.parse.parse_qs(parsed_url.query).get('pageId', [None])[0]`. -/
def queryPageId (url : List Char) : Option (List Char) :=
  getFirstParam ("pageId".toList) (urlPathQuery url).2

/-- The path-segment recognizer: the segment after the first `pages`
segment, accepted only when it is entirely decimal digits; any failure
falls through. -/
def pagesPageId (parts : List (List Char)) : Option (List Char) :=
  match segmentAfterFirst ("pages".toList) parts with
  | some seg => if isdigitPy seg then some seg else none
  | none => none

/-- The short-link recognizer as written in the source: it requires an `l`
segment and a `cp` segment to be present somewhere in the path (adjacency
is not checked) and returns the segment after the first `cp` segment. -/
def shortLinkPageId (parts : List (List Char)) : Option (List Char) :=
  if parts.contains ("l".toList) then segmentAfterFirst ("cp".toList) parts
  else none

/-- The two path-based recognizers in source order (`pages` first). -/
def pathPageId (path : List Char) : Option (List Char) :=
  let parts := splitOnChar '/' path
  match pagesPageId parts with
  | some v => some v
  | none => shortLinkPageId parts

/-- `RobustCrawler._extract_page_id`: query parameter first (guarded by
`if page_id:`, so an absent or empty value falls through), then the path
recognizers, `none` when nothing matches. -/
def extractPageIdCore (url : List Char) : Option (List Char) :=
  match queryPageId url with
  | some v => if v.isEmpty then pathPageId (urlPathQuery url).1 else some v
  | none => pathPageId (urlPathQuery url).1

/-- String-level wrapper for `_extract_page_id`. -/
def extract_page_id (url : String) : Option String :=
  (extractPageIdCore url.toList).map String.mk

/-! ### URL classification (claim C5)

The crawler-side classifier `Crawler.is_confluence_url` is called by
`diagnostic_test.test_confluence_detection` but is not present in
`src/crawler.py` (the `Crawler` class only stores the user-supplied
`--confluence` flag, which is not a function of the URL). -/

/-- Modelled from the spec: the missing crawler-side URL classifier
`Crawler.is_confluence_url`. Section 4.1: `classify(url) -> bool` matches
the URL case-insensitively against a fixed set of substring patterns
denoting the wiki backend — a literal product keyword or a known
hosting-domain suffix; any single match classifies the URL as wiki-style.
The patterns are the two used by the repository's keyword check. -/
def is_confluence_url (url : String) : Bool :=
  (["confluence", "atlassian.net"]).any
    (fun p => hasInfix p.toList (url.toList.map Char.toLower))

/-- The CLI-style keyword check of `diagnostic_test.py`, line 82:
`'confluence' in url.lower() or 'atlassian.net' in url.lower()`. -/
def cli_detection (url : String) : Bool :=
  hasInfix ("confluence".toList) (url.toList.map Char.toLower) ||
  hasInfix ("atlassian.net".toList) (url.toList.map Char.toLower)

/-! ### `ContentProcessor.process`: content selection (src/src/processor.py) -/

/-- A raw crawl result, modelled as the dictionary fields the processor
reads; `none` is an absent key (Python `dict.get` returns `None`). -/
structure RawFetchResult where
  markdown : Option String
  extraction_method : Option String
  content : Option String
  text : Option String
  html : Option String
  title : Option String
  url : Option String
  timestamp : Option String
deriving DecidableEq

/-- Python truthiness of an optional string: `None` and `""` are falsy. -/
def truthy : Option String → Bool
  | none => false
  | some s => !s.isEmpty

/-- Value of an optional field at a point where the code has already
established truthiness. -/
def optStr : Option String → String
  | none => ""
  | some s => s

/-- The sentinel produced by `process` when no field yields content
(processor.py line 61). -/
def sentinel : String := "No content could be extracted."

/-- The distinct sentinel the `content` field is compared against
(processor.py line 48, also produced upstream per crawler.py line 136). -/
def errSentinel : String := "Error: No content could be extracted."

/-- Python `pat in s` at string level. -/
def strContains (s pat : String) : Bool := hasInfix pat.toList s.toList

/-- The markup heuristic of `_convert_to_markdown` (processor.py line 121):
both angle brackets present together with a paragraph, block or link tag
opening. -/
def looks_like_html (s : String) : Bool :=
  strContains s "<" && strContains s ">" &&
    (strContains s "<p>" || strContains s "<div>" || strContains s "<a")

/-- `_convert_to_markdown`: convert through the external HTML-to-markdown
converter `h2m` only when the content looks like markup. -/
def convert_to_markdown (h2m : String → String) (s : String) : String :=
  if looks_like_html s then h2m s else s

/-- The if/elif chain of `process` (lines 42-56) choosing the content
candidate; `h2m` stands for the external `_html_to_markdown` converter
(html2text / BeautifulSoup). -/
def candidateContent (h2m : String → String) (r : RawFetchResult) : Option String :=
  if truthy r.markdown then r.markdown
  else if r.extraction_method == some "enhanced" && truthy r.content then
    some (convert_to_markdown h2m (optStr r.content))
  else if truthy r.content && !(r.content == some errSentinel) then
    some (convert_to_markdown h2m (optStr r.content))
  else if truthy r.text then r.text
  else if truthy r.html then some (h2m (optStr r.html))
  else none

/-- Content selection of `process` (lines 39-61), including the final
`if not markdown_content` guard that substitutes the sentinel for `None`
or an empty string. -/
def select_content (h2m : String → String) (r : RawFetchResult) : String :=
  match candidateContent h2m r with
  | none => sentinel
  | some s => if s.isEmpty then sentinel else s

/-- Field-by-field copy with a new `title`; used to model the dictionary
write `result['title'] = ...`. -/
def setTitle (r : RawFetchResult) (t : Option String) : RawFetchResult :=
  ⟨r.markdown, r.extraction_method, r.content, r.text, r.html, t, r.url, r.timestamp⟩

/-- The only statement of `process` that writes to the input result
(processor.py lines 63-65): when the `title` field is falsy and `html` is
truthy, `result['title']` is overwritten with the HTML-extracted title;
`extractTitle` stands for the external `extract_title_from_html`
(BeautifulSoup-based). -/
def process_title_update (extractTitle : String → String) (r : RawFetchResult) :
    RawFetchResult :=
  if !truthy r.title && truthy r.html then
    setTitle r (some (extractTitle (optStr r.html)))
  else r

/-! ### `_fix_heading_levels` (processor.py lines 299-337) -/

/-- Number of leading `#` characters of a line (the heading level counted
by the source loop). -/
def countHash (l : List Char) : Nat := (l.takeWhile (fun c => c = '#')).length

/-- The per-line demotion of the source loop: a line starting with `#` at
heading level exactly 1 receives one additional `#`; every other line is
unchanged. -/
def demoteLine (l : List Char) : List Char :=
  if countHash l = 1 then '#' :: l else l

/-- Python `line.startswith('# ')`, the title-line test of the loop. -/
def startsWithHashSpace : List Char → Bool
  | c1 :: c2 :: _ => c1 = '#' && c2 = ' '
  | _ => false

/-- The line scan of `_fix_heading_levels`: the first line starting with
`"# "` is skipped (title consumed), every other line goes through the
level-1 demotion. -/
def fixLines : Bool → List (List Char) → List (List Char)
  | _, [] => []
  | titleDone, l :: ls =>
    if !titleDone && startsWithHashSpace l then l :: fixLines true ls
    else demoteLine l :: fixLines titleDone ls

/-- `_fix_heading_levels`: split on newlines, scan, re-join. -/
def fix_heading_levels (s : String) : String :=
  String.mk (joinWith '\n' (fixLines false (splitOnChar '\n' s.toList)))

/-- The header-injection step of `_post_process_markdown` (lines 184-191):
title heading, source line, optional crawl timestamp, horizontal rule. -/
def header_metadata (title url timestamp : String) : String :=
  "# " ++ title ++ "\n\n" ++ "_Source: " ++ url ++ "_  \n" ++
    (if !timestamp.isEmpty then "_Crawled: " ++ timestamp ++ "_  \n" else "") ++
    "\n---\n\n"

/-! ### `_fix_links` (processor.py lines 354-370)

The source performs `re.sub` with pattern `\[(.*?)\]\((.*?)\)([^\s)])` and
replacement `[\1](\2)\3`.  The scanner below implements exactly this
pattern with Python's leftmost, lazy, backtracking match semantics over
text without the DOTALL flag (the groups cannot cross a newline). -/

/-- Python `\s` on the characters relevant here (ASCII whitespace). -/
def isSpacePy (c : Char) : Bool :=
  c = ' ' || c = '\t' || c = '\n' || c = '\r' ||
    c = Char.ofNat 11 || c = Char.ofNat 12

/-- Search for the lazily-shortest second group: the first `)` followed by
a character that is neither whitespace nor `)`; a rejected `)` is absorbed
into the group and the scan continues; a newline aborts the match. Returns
the group, the final character and the rest of the input. -/
def findG2 (acc : List Char) : List Char → Option (List Char × Char × List Char)
  | [] => none
  | x :: xs =>
    if x = ')' then
      match xs with
      | [] => none
      | c :: r =>
        if isSpacePy c || c = ')' then findG2 (x :: acc) xs
        else some (acc.reverse, c, r)
    else if x = '\n' then none
    else findG2 (x :: acc) xs

/-- Search for the lazily-shortest first group: the first `](` boundary
after which the remainder of the pattern matches; a boundary whose
remainder fails is absorbed into the group (regex backtracking); a newline
aborts the match. Returns both groups, the final character and the rest. -/
def findG1 (acc : List Char) :
    List Char → Option (List Char × List Char × Char × List Char)
  | [] => none
  | x :: xs =>
    if x = ']' then
      match xs with
      | y :: r =>
        if y = '(' then
          match findG2 [] r with
          | some (g2, c, rest) => some (acc.reverse, g2, c, rest)
          | none => findG1 (x :: acc) xs
        else findG1 (x :: acc) xs
      | [] => findG1 (x :: acc) xs
    else if x = '\n' then none
    else findG1 (x :: acc) xs

/-- The `re.sub` scan: at each `[` attempt the full pattern match; on a
match, emit the replacement `[\1](\2)\3` — character-identical to the
matched text — and continue after it; otherwise copy one character.  The
fuel (the input length) bounds the recursion; every step consumes at least
one input character, so it never runs out before the input does. -/
def subLinksAux : Nat → List Char → List Char
  | 0, l => l
  | _ + 1, [] => []
  | fuel + 1, x :: xs =>
    if x = '[' then
      match findG1 [] xs with
      | some (g1, g2, c, rest) =>
        '[' :: (g1 ++ ']' :: '(' :: (g2 ++ ')' :: c :: subLinksAux fuel rest))
      | none => x :: subLinksAux fuel xs
    else x :: subLinksAux fuel xs

/-- `_fix_links` at string level. -/
def fix_links (s : String) : String :=
  String.mk (subLinksAux s.toList.length s.toList)

/-! ## Lemmas about splitting and joining lines -/

theorem toList_mk (l : List Char) : (String.mk l).toList = l := rfl

theorem splitOnChar_ne_nil (c : Char) (l : List Char) : splitOnChar c l ≠ [] := by
  induction l with
  | nil => simp [splitOnChar]
  | cons x xs ih =>
    cases h : splitOnChar c xs with
    | nil => simp [splitOnChar, h]
    | cons r rs =>
      simp only [splitOnChar, h]
      split <;> simp

theorem splitOnChar_cons_of_ne (c x : Char) (xs : List Char) (hx : x ≠ c) :
    ∃ h t, splitOnChar c xs = h :: t ∧ splitOnChar c (x :: xs) = (x :: h) :: t := by
  obtain ⟨h, t, he⟩ := List.exists_cons_of_ne_nil (splitOnChar_ne_nil c xs)
  exact ⟨h, t, he, by simp [splitOnChar, he, hx]⟩

theorem splitOnChar_cons_self (c : Char) (xs : List Char) :
    splitOnChar c (c :: xs) = [] :: splitOnChar c xs := by
  obtain ⟨h, t, he⟩ := List.exists_cons_of_ne_nil (splitOnChar_ne_nil c xs)
  simp [splitOnChar, he]

theorem splitOnChar_of_not_mem (c : Char) (l : List Char) (hc : c ∉ l) :
    splitOnChar c l = [l] := by
  induction l with
  | nil => rfl
  | cons x xs ih =>
    have hx : x ≠ c := fun h => hc (h ▸ List.mem_cons_self x xs)
    obtain ⟨h, t, he, heq⟩ := splitOnChar_cons_of_ne c x xs hx
    rw [ih (fun hm => hc (List.mem_cons_of_mem x hm))] at he
    cases he
    simpa using heq

theorem splitOnChar_append_sep (c : Char) (l t : List Char) (hc : c ∉ l) :
    splitOnChar c (l ++ c :: t) = l :: splitOnChar c t := by
  induction l with
  | nil => simpa using splitOnChar_cons_self c t
  | cons x xs ih =>
    have hx : x ≠ c := fun h => hc (h ▸ List.mem_cons_self x xs)
    obtain ⟨h, t', he, heq⟩ :=
      splitOnChar_cons_of_ne c x (xs ++ c :: t) hx
    rw [ih (fun hm => hc (List.mem_cons_of_mem x hm))] at he
    cases he
    simpa using heq

theorem splitOnChar_no_sep (c : Char) (l : List Char) :
    ∀ m ∈ splitOnChar c l, c ∉ m := by
  induction l with
  | nil => intro m hm; simp [splitOnChar] at hm; simp [hm]
  | cons x xs ih =>
    intro m hm
    by_cases hx : x = c
    · subst hx
      rw [splitOnChar_cons_self] at hm
      rcases List.mem_cons.mp hm with rfl | hm2
      · simp
      · exact ih m hm2
    · obtain ⟨h, t, he, heq⟩ := splitOnChar_cons_of_ne c x xs hx
      rw [heq] at hm
      rcases List.mem_cons.mp hm with rfl | hm2
      · intro hcm
        rcases List.mem_cons.mp hcm with hcx | hch
        · exact hx hcx.symm
        · exact ih h (he ▸ List.mem_cons_self h t) hch
      · exact ih m (he ▸ List.mem_cons_of_mem h hm2)

theorem splitOnChar_joinWith (c : Char) (ls : List (List Char)) (hne : ls ≠ [])
    (hfree : ∀ m ∈ ls, c ∉ m) : splitOnChar c (joinWith c ls) = ls := by
  induction ls with
  | nil => exact absurd rfl hne
  | cons l ls ih =>
    cases ls with
    | nil =>
      simpa [joinWith] using
        splitOnChar_of_not_mem c l (hfree l (List.mem_cons_self l []))
    | cons l2 ls2 =>
      have h1 : splitOnChar c (joinWith c (l2 :: ls2)) = l2 :: ls2 :=
        ih (by simp) (fun m hm => hfree m (List.mem_cons_of_mem l hm))
      calc splitOnChar c (joinWith c (l :: l2 :: ls2))
          = splitOnChar c (l ++ c :: joinWith c (l2 :: ls2)) := rfl
        _ = l :: splitOnChar c (joinWith c (l2 :: ls2)) :=
            splitOnChar_append_sep c l _ (hfree l (List.mem_cons_self l _))
        _ = l :: l2 :: ls2 := by rw [h1]

/-! ## Lemmas about the heading-shift pass -/

theorem countHash_cons_hash (l : List Char) : countHash ('#' :: l) = countHash l + 1 := by
  simp [countHash, List.takeWhile_cons]

theorem demoteLine_idem (l : List Char) : demoteLine (demoteLine l) = demoteLine l := by
  unfold demoteLine
  by_cases h : countHash l = 1
  · simp [h, countHash_cons_hash]
  · simp [h]

theorem fixLines_true_map (ls : List (List Char)) :
    fixLines true ls = ls.map demoteLine := by
  induction ls with
  | nil => rfl
  | cons l ls ih => simp [fixLines, ih]

/-- C7: after the heading-shift pass on a document whose first line is the
injected title heading, the first line survives untouched, every other
line that is a level-1 heading gains exactly one `#`, every other line is
left as is, and consequently no line after the first is a level-1 heading. -/
theorem c7_single_h1_invariant (l : List Char) (ls : List (List Char))
    (h : startsWithHashSpace l = true) :
    fixLines false (l :: ls) =
      l :: ls.map (fun m => if countHash m = 1 then '#' :: m else m)
    ∧ (ls.map (fun m => if countHash m = 1 then '#' :: m else m)).all
        (fun m => !(countHash m == 1)) = true := by
  constructor
  · simp [fixLines, h, fixLines_true_map, demoteLine]
  · induction ls with
    | nil => rfl
    | cons m ms ih =>
      simp only [List.map_cons, List.all_cons, ih, Bool.and_true]
      by_cases hm : countHash m = 1
      · simp [hm, countHash_cons_hash]
      · simp [hm]

/-- Witness for C7 at a concrete document. -/
theorem c7_single_h1_invariant_witness :
    fixLines false ["# T".toList, "# A".toList, "## B".toList, "x".toList] =
      "# T".toList ::
        (["# A".toList, "## B".toList, "x".toList]).map
          (fun m => if countHash m = 1 then '#' :: m else m)
    ∧ ((["# A".toList, "## B".toList, "x".toList]).map
        (fun m => if countHash m = 1 then '#' :: m else m)).all
        (fun m => !(countHash m == 1)) = true :=
  c7_single_h1_invariant "# T".toList ["# A".toList, "## B".toList, "x".toList]
    (by decide)

/-- C3: evaluation of the heading-shift pass at the claim's input, the
title-injected document followed by the body `"# A\n\n# B\n\n## C"`.  The
first line is kept and the level-1 headings are demoted to level 2, but
the level-2 heading `"## C"` is left at level 2: the source loop only
demotes level-1 headings, while its own comment (`h1->h2, h2->h3, etc.`)
and the repository test `test_fix_heading_levels` (which asserts
`"### Subsection"`) expect every heading to be demoted one level. -/
theorem c3_heading_shift_leaves_h2 :
    fix_heading_levels (header_metadata "T" "u" "" ++ "# A\n\n# B\n\n## C") =
      header_metadata "T" "u" "" ++ "## A\n\n## B\n\n## C"
    ∧ fix_heading_levels (header_metadata "T" "u" "" ++ "# A\n\n# B\n\n## C") ≠
      header_metadata "T" "u" "" ++ "## A\n\n## B\n\n### C" := by
  constructor
  · decide
  · decide

theorem splitOnChar_head_hash (l : List Char) (h : startsWithHashSpace l = true) :
    ∃ h0 t, splitOnChar '\n' l = h0 :: t ∧ startsWithHashSpace h0 = true := by
  match l with
  | [] => simp [startsWithHashSpace] at h
  | [c1] => simp [startsWithHashSpace] at h
  | c1 :: c2 :: r =>
    simp only [startsWithHashSpace, Bool.and_eq_true, decide_eq_true_eq] at h
    obtain ⟨rfl, rfl⟩ := h
    obtain ⟨h1, t1, he1, eq1⟩ := splitOnChar_cons_of_ne '\n' ' ' r (by decide)
    obtain ⟨h2, t2, he2, eq2⟩ := splitOnChar_cons_of_ne '\n' '#' (' ' :: r) (by decide)
    rw [eq1] at he2
    cases he2
    exact ⟨'#' :: ' ' :: h1, t1, eq2, rfl⟩

theorem not_mem_demoteLine (l : List Char) (c : Char) (hc : c ≠ '#') (h : c ∉ l) :
    c ∉ demoteLine l := by
  unfold demoteLine
  split
  · intro hm
    rcases List.mem_cons.mp hm with h1 | h2
    · exact hc h1
    · exact h h2
  · exact h

/-- C10: the heading-shift pass is idempotent on documents whose first
line is the injected level-1 title heading — the first pass leaves no
level-1 heading after the first line, and lines at level 2 or deeper are
never demoted, so a second pass changes nothing. -/
theorem c10_heading_shift_idempotent (s : String)
    (h : startsWithHashSpace s.toList = true) :
    fix_heading_levels (fix_heading_levels s) = fix_heading_levels s := by
  obtain ⟨h0, t, hsplit, hh0⟩ := splitOnChar_head_hash s.toList h
  have hout : fixLines false (splitOnChar '\n' s.toList) = h0 :: t.map demoteLine := by
    rw [hsplit]
    simp [fixLines, hh0, fixLines_true_map]
  have hnl : ∀ m ∈ h0 :: t.map demoteLine, '\n' ∉ m := by
    intro m hm
    rcases List.mem_cons.mp hm with rfl | hm2
    · exact splitOnChar_no_sep '\n' s.toList m (hsplit ▸ List.mem_cons_self _ _)
    · obtain ⟨m0, hm0, rfl⟩ := List.mem_map.mp hm2
      exact not_mem_demoteLine m0 '\n' (by decide)
        (splitOnChar_no_sep '\n' s.toList m0 (hsplit ▸ List.mem_cons_of_mem _ hm0))
  unfold fix_heading_levels
  rw [hout, toList_mk,
    splitOnChar_joinWith '\n' (h0 :: t.map demoteLine) (by simp) hnl]
  simp only [fixLines, hh0, Bool.not_false, Bool.true_and, if_pos,
    fixLines_true_map, List.map_map]
  have hdem : ∀ m, (demoteLine ∘ demoteLine) m = demoteLine m := fun m =>
    demoteLine_idem m
  rw [funext hdem]

/-- Witness for C10 at a concrete document. -/
theorem c10_heading_shift_idempotent_witness :
    fix_heading_levels (fix_heading_levels "# T\n\n# A\n\n## C") =
      fix_heading_levels "# T\n\n# A\n\n## C" :=
  c10_heading_shift_idempotent "# T\n\n# A\n\n## C" (by decide)

/-! ## Lemmas about the link scanner -/

theorem findG2_sound (l : List Char) :
    ∀ (acc g2 : List Char) (c : Char) (rest : List Char),
      findG2 acc l = some (g2, c, rest) →
      acc.reverse ++ l = g2 ++ ')' :: c :: rest := by
  induction l with
  | nil => intro acc g2 c rest h; simp [findG2] at h
  | cons x xs ih =>
    intro acc g2 c rest h
    simp only [findG2] at h
    by_cases hx : x = ')'
    · rw [if_pos hx] at h
      cases xs with
      | nil => simp at h
      | cons c2 r2 =>
        simp only at h
        by_cases hbad : (isSpacePy c2 || c2 = ')') = true
        · rw [if_pos hbad] at h
          have hr := ih (x :: acc) g2 c rest h
          rw [List.reverse_cons, List.append_assoc] at hr
          simpa using hr
        · rw [if_neg hbad] at h
          rw [Option.some_inj] at h
          obtain ⟨rfl, rfl, rfl⟩ := Prod.mk.injEq .. ▸ h
          subst hx
          rfl
    · rw [if_neg hx] at h
      by_cases hn : x = '\n'
      · rw [if_pos hn] at h; simp at h
      · rw [if_neg hn] at h
        have hr := ih (x :: acc) g2 c rest h
        rw [List.reverse_cons, List.append_assoc] at hr
        simpa using hr

theorem findG1_sound (l : List Char) :
    ∀ (acc g1 g2 : List Char) (c : Char) (rest : List Char),
      findG1 acc l = some (g1, g2, c, rest) →
      acc.reverse ++ l = g1 ++ ']' :: '(' :: (g2 ++ ')' :: c :: rest) := by
  induction l with
  | nil => intro acc g1 g2 c rest h; simp [findG1] at h
  | cons x xs ih =>
    intro acc g1 g2 c rest h
    simp only [findG1] at h
    by_cases hx : x = ']'
    · rw [if_pos hx] at h
      cases xs with
      | nil =>
        have hr := ih (x :: acc) g1 g2 c rest h
        rw [List.reverse_cons, List.append_assoc] at hr
        simpa using hr
      | cons y r =>
        simp only at h
        by_cases hy : y = '('
        · rw [if_pos hy] at h
          cases hg : findG2 [] r with
          | none =>
            rw [hg] at h
            have hr := ih (x :: acc) g1 g2 c rest h
            rw [List.reverse_cons, List.append_assoc] at hr
            simpa using hr
          | some val =>
            obtain ⟨g2', c', rest'⟩ := val
            rw [hg] at h
            rw [Option.some_inj] at h
            have hr := findG2_sound r [] g2' c' rest' hg
            simp only [List.reverse_nil, List.nil_append] at hr
            obtain ⟨rfl, rfl, rfl, rfl⟩ := Prod.mk.injEq .. ▸ h
            subst hx hy
            rw [hr]
        · rw [if_neg hy] at h
          have hr := ih (x :: acc) g1 g2 c rest h
          rw [List.reverse_cons, List.append_assoc] at hr
          simpa using hr
    · rw [if_neg hx] at h
      by_cases hn : x = '\n'
      · rw [if_pos hn] at h; simp at h
      · rw [if_neg hn] at h
        have hr := ih (x :: acc) g1 g2 c rest h
        rw [List.reverse_cons, List.append_assoc] at hr
        simpa using hr

theorem subLinksAux_id (fuel : Nat) : ∀ l : List Char, subLinksAux fuel l = l := by
  induction fuel with
  | zero => intro l; rfl
  | succ f ih =>
    intro l
    cases l with
    | nil => rfl
    | cons x xs =>
      simp only [subLinksAux]
      by_cases hx : x = '['
      · rw [if_pos hx]
        cases hg : findG1 [] xs with
        | none => rw [ih xs]
        | some val =>
          obtain ⟨g1, g2, c, rest⟩ := val
          have hs := findG1_sound xs [] g1 g2 c rest hg
          simp only [List.reverse_nil, List.nil_append] at hs
          show '[' :: (g1 ++ ']' :: '(' :: (g2 ++ ')' :: c :: subLinksAux f rest)) =
            x :: xs
          rw [ih rest, hx, hs]
      · rw [if_neg hx, ih xs]

/-- The substitution performed by `_fix_links` is the identity: the
replacement `[\1](\2)\3` reconstructs exactly the text matched by
`\[(.*?)\]\((.*?)\)([^\s)])`, so no space is ever inserted. -/
theorem fix_links_id (s : String) : fix_links s = s := by
  unfold fix_links
  rw [subLinksAux_id]
  rfl

/-- C1: evaluation of the link-spacing repair at the claim's input.  The
code returns `"[X](http://e.com)Y"` unchanged instead of inserting a
space: the `re.sub` replacement lacks the space the surrounding comment
and the repository test `test_fix_links` require. -/
theorem c1_fix_links_noop :
    fix_links "[X](http://e.com)Y" = "[X](http://e.com)Y"
    ∧ fix_links "[X](http://e.com)Y" ≠ "[X](http://e.com) Y" := by
  refine ⟨fix_links_id _, ?_⟩
  rw [fix_links_id]
  decide

/-! ## Content selection and the title frame effect -/

/-- C2: content selection never yields the empty string, and when none of
the four content-bearing fields is usable (non-empty) it yields exactly
the sentinel failure string, for every external markup converter `h2m`. -/
theorem c2_select_content_never_empty (h2m : String → String) (r : RawFetchResult) :
    select_content h2m r ≠ ""
    ∧ (truthy r.markdown = false → truthy r.content = false →
        truthy r.text = false → truthy r.html = false →
        select_content h2m r = sentinel) := by
  constructor
  · unfold select_content
    cases hc : candidateContent h2m r with
    | none => show sentinel ≠ ""; decide
    | some s =>
      show (if s.isEmpty = true then sentinel else s) ≠ ""
      by_cases hs : s.isEmpty = true
      · rw [if_pos hs]; decide
      · rw [if_neg hs]
        intro he
        subst he
        exact hs rfl
  · intro h1 h2 h3 h4
    unfold select_content candidateContent
    simp [h1, h2, h3, h4]

/-- Witness for C2 at the all-absent result. -/
theorem c2_select_content_never_empty_witness :
    select_content id ⟨none, none, none, none, none, none, none, none⟩ = sentinel
    ∧ select_content id ⟨none, none, none, none, none, none, none, none⟩ ≠ "" :=
  ⟨(c2_select_content_never_empty id _).2 rfl rfl rfl rfl,
    (c2_select_content_never_empty id _).1⟩

/-- Counterexample for C8: a result whose `content` field equals the
sentinel `"No content could be extracted."` and whose `text` field is the
non-empty `"real text"` selects the content field (the sentinel string),
not the text field — the code guards `content` against
`"Error: No content could be extracted."`, not against the sentinel. -/
theorem c8_content_guard_counterexample :
    select_content id
        ⟨none, none, some "No content could be extracted.", some "real text",
          none, none, none, none⟩ =
      "No content could be extracted."
    ∧ select_content id
        ⟨none, none, some "No content could be extracted.", some "real text",
          none, none, none, none⟩ ≠ "real text" := by
  constructor
  · decide
  · decide

/-- C8 as amended: the guard string is
`"Error: No content could be extracted."`.  First part: with no usable
`markdown`, a `content` field equal to the extraction-failure sentinel is
still selected (converted, which is the identity on it), whatever `text`
holds.  Second part: `content` equal to the guard string is skipped and a
non-empty `text` field is selected. -/
theorem c8_content_guard_amended (h2m : String → String) (r : RawFetchResult) :
    (truthy r.markdown = false → r.content = some sentinel →
      select_content h2m r = sentinel)
    ∧ (truthy r.markdown = false → r.extraction_method ≠ some "enhanced" →
        r.content = some errSentinel → truthy r.text = true →
        select_content h2m r = optStr r.text) := by
  have hconv : convert_to_markdown h2m sentinel = sentinel := by
    have hl : looks_like_html sentinel = false := by decide
    simp [convert_to_markdown, hl]
  have hse : sentinel.isEmpty = false := by decide
  have hbeq : ((some sentinel : Option String) == some errSentinel) = false := by
    decide
  constructor
  · intro h1 h2
    unfold select_content candidateContent
    rw [h2]
    simp only [h1]
    by_cases he : (r.extraction_method == some "enhanced") = true
    · simp [he, truthy, optStr, hse, hconv]
    · have he' : (r.extraction_method == some "enhanced") = false := by
        simpa using he
      simp [he', truthy, optStr, hse, hbeq, hconv]
  · intro h1 h2 h3 h4
    have he : (r.extraction_method == some "enhanced") = false := by
      simpa using h2
    have hbeq2 : ((some errSentinel : Option String) == some errSentinel) = true := by
      decide
    cases ht : r.text with
    | none => rw [ht] at h4; simp [truthy] at h4
    | some t =>
      rw [ht] at h4
      have h4e : t.isEmpty = false := by simpa [truthy] using h4
      unfold select_content candidateContent
      rw [h3, ht]
      simp only [h1]
      simp [he, truthy, hbeq2, h4e, optStr]

/-- Witness for C8 as amended, at both concrete results. -/
theorem c8_content_guard_amended_witness :
    select_content id
        ⟨none, none, some "No content could be extracted.", some "tt",
          none, none, none, none⟩ =
      sentinel
    ∧ select_content id
        ⟨none, none, some "Error: No content could be extracted.", some "tt",
          none, none, none, none⟩ =
      optStr (some "tt") :=
  ⟨(c8_content_guard_amended id _).1 rfl rfl,
    (c8_content_guard_amended id _).2 rfl (by decide) rfl rfl⟩

/-- Counterexample for C9: `process` does write to its input.  On a result
with no `title` key and a non-empty `html` field, lines 63-65 of
processor.py store the HTML-extracted title into the input dictionary
(shown here with an extractor returning `"T"`, the behaviour of
`extract_title_from_html` on this markup). -/
theorem c9_title_write_counterexample :
    process_title_update (fun _ => "T")
        ⟨none, none, none, none, some "<title>T</title>", none,
          some "https://e.com", none⟩ ≠
      ⟨none, none, none, none, some "<title>T</title>", none,
        some "https://e.com", none⟩
    ∧ (process_title_update (fun _ => "T")
        ⟨none, none, none, none, some "<title>T</title>", none,
          some "https://e.com", none⟩).title = some "T" := by
  constructor
  · decide
  · decide

/-- C9 as amended: the pipeline's only write to the input result is the
`title` field, which is overwritten exactly when the input `title` is
falsy and `html` is truthy; every other field is left unchanged, and when
the condition fails the input is returned untouched. -/
theorem c9_title_frame_amended (f : String → String) (r : RawFetchResult) :
    (process_title_update f r).markdown = r.markdown
    ∧ (process_title_update f r).extraction_method = r.extraction_method
    ∧ (process_title_update f r).content = r.content
    ∧ (process_title_update f r).text = r.text
    ∧ (process_title_update f r).html = r.html
    ∧ (process_title_update f r).url = r.url
    ∧ (process_title_update f r).timestamp = r.timestamp
    ∧ ((truthy r.title = true ∨ truthy r.html = false) →
        process_title_update f r = r) := by
  unfold process_title_update setTitle
  by_cases hc : (!truthy r.title && truthy r.html) = true
  · rw [if_pos hc]
    refine ⟨rfl, rfl, rfl, rfl, rfl, rfl, rfl, ?_⟩
    intro hd
    simp only [Bool.and_eq_true, Bool.not_eq_true'] at hc
    rcases hd with hd | hd
    · rw [hc.1] at hd; exact absurd hd (by decide)
    · rw [hc.2] at hd; exact absurd hd (by decide)
  · rw [if_neg hc]
    exact ⟨rfl, rfl, rfl, rfl, rfl, rfl, rfl, fun _ => rfl⟩

/-- Witness for C9 as amended: a result with an existing title is returned
unchanged. -/
theorem c9_title_frame_amended_witness :
    process_title_update id
        ⟨none, none, none, none, some "<p>x</p>", some "Existing", none, none⟩ =
      ⟨none, none, none, none, some "<p>x</p>", some "Existing", none, none⟩ :=
  (c9_title_frame_amended id _).2.2.2.2.2.2.2 (Or.inl (by decide))

/-! ## Lemmas about query-string decoding and the page-id resolver -/

theorem unquoteAux_succ_cons (f : Nat) (c : Char) (rest : List Char) :
    unquoteAux (f + 1) (c :: rest) ≠ [] := by
  simp only [unquoteAux]
  by_cases hc : c = '%'
  · rw [if_pos hc]
    cases rest with
    | nil => simp
    | cons h1 r1 =>
      cases r1 with
      | nil => simp
      | cons h2 r2 =>
        simp only
        split <;> simp
  · rw [if_neg hc]; simp

theorem unquoteBytes_ne_nil (l : List Char) (h : l ≠ []) : unquoteBytes l ≠ [] := by
  cases l with
  | nil => exact absurd rfl h
  | cons c rest =>
    show unquoteAux (rest.length + 1) (c :: rest) ≠ []
    exact unquoteAux_succ_cons _ _ _

theorem unquotePlus_ne_nil (l : List Char) (h : l ≠ []) : unquotePlus l ≠ [] := by
  unfold unquotePlus
  apply unquoteBytes_ne_nil
  simp [h]

theorem parseQsl_snd_ne_nil (q : List Char) (p : List Char × List Char)
    (hp : p ∈ parseQsl q) : p.2 ≠ [] := by
  unfold parseQsl at hp
  rw [List.mem_filterMap] at hp
  obtain ⟨chunk, _, hf⟩ := hp
  by_cases h1 : chunk.isEmpty = true
  · rw [if_pos h1] at hf; exact absurd hf (by simp)
  · rw [if_neg h1] at hf
    cases hs : splitFirst '=' chunk with
    | none => rw [hs] at hf; exact absurd hf (by simp)
    | some nv =>
      obtain ⟨n, v⟩ := nv
      rw [hs] at hf
      simp only at hf
      by_cases h2 : v.isEmpty = true
      · rw [if_pos h2] at hf; exact absurd hf (by simp)
      · rw [if_neg h2] at hf
        rw [Option.some_inj] at hf
        cases hf
        exact unquotePlus_ne_nil v (fun hv => h2 (by rw [hv]; rfl))

theorem getFirstParam_some_ne_nil (name q v : List Char)
    (h : getFirstParam name q = some v) : v ≠ [] := by
  unfold getFirstParam at h
  cases hl : (parseQsl q).filter (fun p => decide (p.1 = name)) with
  | nil => rw [hl] at h; simp at h
  | cons p ps =>
    rw [hl] at h
    have h2 : p.2 = v := by simpa using h
    have hmem : p ∈ parseQsl q :=
      List.mem_of_mem_filter (hl ▸ List.mem_cons_self p ps)
    exact h2 ▸ parseQsl_snd_ne_nil q p hmem

/-- C4: the `pageId` query parameter has top priority in
`_extract_page_id` — whenever the parsed query string carries a non-empty
`pageId` value, exactly that value is returned, whatever other
recognizable shapes the URL path contains; when the query carries no
(non-empty) `pageId`, the path recognizers are tried instead, as witnessed
concretely by a URL with an empty `pageId=` value falling through to the
`pages` path recognizer. -/
theorem c4_pageid_query_priority :
    (∀ (url : String) (v : List Char),
        queryPageId url.toList = some v →
        extract_page_id url = some (String.mk v))
    ∧ (∀ url : String,
        queryPageId url.toList = none →
        extract_page_id url = (pathPageId (urlPathQuery url.toList).1).map String.mk)
    ∧ extract_page_id "https://example.com/wiki/spaces/S/pages/777?pageId=" =
        some "777" := by
  refine ⟨?_, ?_, by decide⟩
  · intro url v h
    have hv : v ≠ [] := getFirstParam_some_ne_nil _ _ _ h
    have hve : v.isEmpty = false := by
      cases v with
      | nil => exact absurd rfl hv
      | cons a t => rfl
    unfold extract_page_id extractPageIdCore
    rw [h]
    show (if v.isEmpty = true then pathPageId (urlPathQuery url.toList).1
        else some v).map String.mk = some (String.mk v)
    rw [hve]
    rfl
  · intro url h
    unfold extract_page_id extractPageIdCore
    rw [h]

/-- Witness for C4 at a URL carrying all three recognizable shapes. -/
theorem c4_pageid_query_priority_witness :
    extract_page_id
        "https://ex.atlassian.net/wiki/spaces/S/pages/123/x?other=1&pageId=999&pageId=111" =
      some "999" :=
  c4_pageid_query_priority.1
    "https://ex.atlassian.net/wiki/spaces/S/pages/123/x?other=1&pageId=999&pageId=111"
    ("999".toList) (by decide)

/-- Counterexample for C6: the short-link recognizer does not require the
`l` and `cp` segments to be adjacent — on a path whose `cp` and `l`
segments are separated (and which matches no higher-priority shape),
`_extract_page_id` still returns the segment after the first `cp` instead
of the claimed not-found. -/
theorem c6_short_link_counterexample :
    extract_page_id "https://example.com/cp/x/l/y" = some "x"
    ∧ extract_page_id "https://example.com/cp/x/l/y" ≠ none := by
  constructor
  · decide
  · decide

/-- C6 as amended: when the query and the `pages` recognizers fail, the
resolver returns the segment after the first `cp` segment whenever the
path contains an `l` segment anywhere and a `cp` segment followed by some
segment — in any order and at any distance, adjacency is not required —
and not-found otherwise; the spec's adjacent short-link form is the
special case witnessed second. -/
theorem c6_short_link_amended :
    (∀ url : String,
        queryPageId url.toList = none →
        pagesPageId (splitOnChar '/' (urlPathQuery url.toList).1) = none →
        extract_page_id url =
          (if (splitOnChar '/' (urlPathQuery url.toList).1).contains ("l".toList)
            then segmentAfterFirst ("cp".toList)
              (splitOnChar '/' (urlPathQuery url.toList).1)
            else none).map String.mk)
    ∧ extract_page_id "https://x.example/l/cp/ru5nUbGr" = some "ru5nUbGr" := by
  refine ⟨?_, by decide⟩
  intro url h1 h2
  unfold extract_page_id extractPageIdCore pathPageId
  rw [h1]
  simp only
  rw [h2]
  rfl

/-- Witness for C6 as amended at a URL with non-adjacent `l` and `cp`. -/
theorem c6_short_link_amended_witness :
    extract_page_id "https://example.com/l/a/cp/b" = some "b" := by
  have h := c6_short_link_amended.1 "https://example.com/l/a/cp/b"
    (by decide) (by decide)
  rw [h]
  decide

/-! ## URL classification (claim C5) -/

/-- C5: the (spec-modelled) crawler-side classifier and the CLI-style
keyword check of `diagnostic_test.py` agree on every URL; both are pure
functions of the URL, so repeated calls trivially return the same
boolean. -/
theorem c5_classification_consistent (url : String) :
    is_confluence_url url = cli_detection url := by
  simp [is_confluence_url, cli_detection]

end Scraper
